import Mathlib

/-!
# Document reader: session, tabs, upload and export

A shallow embedding of `assets/index.js`.  The page state of the script (the
`files` array, `activeIndex`, the markup of the `reader` element, the rendered
tab strip and the upload batches whose reads are still outstanding) is an
explicit record, each event handler is a function on that record returning the
new record together with the signal the handler ends with, and the library
calls the script makes (`marked.parse`, `renderMathInElement`,
`hljs.highlightAll`) are parameters.
-/

namespace ReadmeReader

/-! ## Data model -/

/-- One entry of the `files` array: `{ name, html }`. -/
structure Doc where
  name : String
  html : String
deriving DecidableEq

/-- One tab drawn by `renderTabs`: its label and whether it carries the
`active` class.  The index baked into its click handlers is its position. -/
structure Tab where
  name : String
  active : Bool
deriving DecidableEq

/-- One call of `handleFileUpload` with a non-empty selection: the names of the
selected files, the `loadedCount` closure variable, and the positions of the
files whose `FileReader` has not fired `onload` yet. -/
structure Batch where
  uploadedFiles : List String
  loadedCount : Nat
  pending : List Nat
deriving DecidableEq

/-- The mutable state of the page.  `reader` is `reader.innerHTML`. -/
structure Page where
  files : List Doc
  activeIndex : Int
  reader : String
  tabBar : List Tab
  batches : List Batch
deriving DecidableEq

/-- The library functions the script calls.  `marked` is `marked.parse`;
`renderMath` and `highlightAll` are the effect of `renderMathInElement(reader, …)`
and of `hljs.highlightAll()` on the markup of the reader element. -/
structure Env where
  marked : String → String
  renderMath : String → String
  highlightAll : String → String

/-- How a handler ends: normally, with the `alert` of `closeTab`, with an
uncaught `TypeError` (a property access on `undefined`), or with the download
triggered by `exportHTML`. -/
inductive Signal where
  | done
  | alert (msg : String)
  | typeError
  | download (filename : String) (content : String)
deriving DecidableEq

/-! ## Array primitives -/

/-- JavaScript `xs[i]` for a number `i`: `undefined` (here `none`) outside the array. -/
def jsGet {α : Type} (xs : List α) (i : Int) : Option α :=
  if i < 0 then none else xs[i.toNat]?

/-- The start position `Array.prototype.splice` computes from its first argument. -/
def spliceStart (len : Nat) (index : Int) : Nat :=
  if index < 0 then Int.toNat ((len : Int) + index) else min index.toNat len

/-- Array after `xs.splice(index, 1)`. -/
def splice1 {α : Type} (xs : List α) (index : Int) : List α :=
  xs.eraseIdx (spliceStart xs.length index)

/-! ## The seed state -/

/-- The `html` of the initial entry of `files`. -/
def welcomeHtml : String :=
  "\n<h1>Welcome to Document Reader</h1>\n<p>This is a study-focused viewer. We have hidden the code editor to help you focus.</p>\n<h2>How to Highlight?</h2>\n<p>1. <strong>Select any text</strong> with your mouse.</p>\n<p>2. A floating menu will appear.</p>\n<p>3. Pick a color to <span class=\"highlight-yellow\">highlight the text</span> instantly.</p>\n<h2>Math & Code Support</h2>\n<pre><code class=\"language-python\">def study_hard():\nreturn \"Success\"</code></pre>\n<p>Math equation: $$E = mc^2$$</p>\n"

/-- The script's top-level state before `init()` runs. -/
def boot : Page :=
  { files := [{ name := "Welcome.md", html := welcomeHtml }]
    activeIndex := 0
    reader := ""
    tabBar := []
    batches := [] }

/-! ## Tab system -/

/-- The tabs `renderTabs` draws for the entries from position `k` on. -/
def tabsFrom (activeIndex : Int) : Nat → List Doc → List Tab
  | _, [] => []
  | k, f :: fs => { name := f.name, active := decide ((k : Int) = activeIndex) } ::
      tabsFrom activeIndex (k + 1) fs

/-- `renderTabs()`: the tab strip is rebuilt from `files` and `activeIndex`. -/
def renderTabs (p : Page) : Page :=
  { p with tabBar := tabsFrom p.activeIndex 0 p.files }

/-- `loadActiveFile()`: the reader is filled from `files[activeIndex].html`, then
math rendering and code colouring run over it.  Reading `.html` of `undefined`
throws before the reader is touched. -/
def loadActiveFile (env : Env) (p : Page) : Page × Signal :=
  match jsGet p.files p.activeIndex with
  | none => (p, Signal.typeError)
  | some d => ({ p with reader := env.highlightAll (env.renderMath d.html) }, Signal.done)

/-- The statement `files[activeIndex].html = reader.innerHTML`; `none` when
`files[activeIndex]` is `undefined` and the assignment throws. -/
def commit (p : Page) : Option Page :=
  match jsGet p.files p.activeIndex with
  | none => none
  | some d => some { p with files := p.files.set p.activeIndex.toNat { d with html := p.reader } }

/-- `switchTab(index)`. -/
def switchTab (env : Env) (p : Page) (index : Int) : Page × Signal :=
  match commit p with
  | none => (p, Signal.typeError)
  | some p1 => loadActiveFile env (renderTabs { p1 with activeIndex := index })

/-- `closeTab(e, index)`. -/
def closeTab (env : Env) (p : Page) (index : Int) : Page × Signal :=
  if p.files.length = 1 then (p, Signal.alert "Keep at least one file open.")
  else
    let fs := splice1 p.files index
    let ai := if (fs.length : Int) ≤ p.activeIndex then (fs.length : Int) - 1 else p.activeIndex
    loadActiveFile env (renderTabs { p with files := fs, activeIndex := ai })

/-- `init()`, as far as the session is concerned: `renderTabs(); loadActiveFile();`. -/
def init (env : Env) : Page :=
  (loadActiveFile env (renderTabs boot)).1

/-! ## Upload -/

/-- `handleFileUpload(input)` for a selection with the given file names: nothing
happens for an empty selection, otherwise one read per file is started. -/
def handleFileUpload (p : Page) (names : List String) : Page :=
  if names.length = 0 then p
  else { p with batches := p.batches ++
          [{ uploadedFiles := names, loadedCount := 0, pending := List.range names.length }] }

/-- The `r.onload` callback of the read of file `j` of batch `b`, delivering
`text`.  A read that is not outstanding delivers nothing. -/
def onload (env : Env) (p : Page) (b j : Nat) (text : String) : Page × Signal :=
  match p.batches[b]? with
  | none => (p, Signal.done)
  | some B =>
    if j ∈ B.pending then
      match B.uploadedFiles[j]? with
      | none => (p, Signal.done)
      | some name =>
        let rawHtml := env.marked text
        let fs := p.files ++ [{ name := name, html := rawHtml }]
        let B1 : Batch := { B with loadedCount := B.loadedCount + 1, pending := B.pending.erase j }
        let p1 : Page := { p with files := fs, batches := p.batches.set b B1 }
        if B1.loadedCount = B.uploadedFiles.length then
          switchTab env p1 ((fs.length : Int) - (B.uploadedFiles.length : Int))
        else (p1, Signal.done)
    else (p, Signal.done)

/-! ## Highlighting -/

/-- The handlers that end in `files[activeIndex].html = reader.innerHTML` after
the browser has changed the reader's markup to `markup`: the tail of
`applyHighlight` and of `removeHighlight`, and the `input` listener. -/
def saveState (p : Page) (markup : String) : Page × Signal :=
  let p1 := { p with reader := markup }
  match commit p1 with
  | none => (p1, Signal.typeError)
  | some p2 => (p2, Signal.done)

/-- `applyHighlight(className, event)`: returns at once when the selection has no
range (`none`); otherwise the wrap or the colour command leaves the reader with
the markup `m` and the state is saved. -/
def applyHighlight (p : Page) (result : Option String) : Page × Signal :=
  match result with
  | none => (p, Signal.done)
  | some m => saveState p m

/-- `removeHighlight(event)`: the format removal leaves the reader with `markup`. -/
def removeHighlight (p : Page) (markup : String) : Page × Signal :=
  saveState p markup

/-! ## Export -/

/-- JavaScript `s.replace(pat, rep)` for string `pat`: the first occurrence of
`pat` is replaced, on character lists. -/
def replaceFirst (pat rep : List Char) : List Char → List Char
  | [] => if pat = [] then rep else []
  | c :: cs =>
    if pat.isPrefixOf (c :: cs) then rep ++ (c :: cs).drop pat.length
    else c :: replaceFirst pat rep cs

/-- The value `name.replace('.md', '.html')`. -/
def downloadName (name : String) : String :=
  String.mk (replaceFirst ".md".data ".html".data name.data)

/-- The text of the `style` element of the export template, between the tags. -/
def styleBlock : String :=
  "\nbody\x7bfont-family:sans-serif;max-width:800px;margin:2rem auto;line-height:1.6;color:#333\x7d\n.highlight-yellow\x7bbackground:#fde047\x7d .highlight-green\x7bbackground:#86efac\x7d\n.highlight-blue\x7bbackground:#93c5fd\x7d .highlight-pink\x7bbackground:#f9a8d4\x7d\nblockquote\x7bborder-left:4px solid #ccc;padding-left:1em;color:#666\x7d\npre\x7bbackground:#f4f4f4;padding:1em;border-radius:5px;overflow-x:auto\x7d\nimg\x7bmax-width:100%\x7d\n"

/-- The export template up to and including the line of the opening `body` tag. -/
def exportHead (title : String) : String :=
  "\n<!DOCTYPE html>\n<html>\n<head>\n<meta charset=\"utf-8\">\n<title>" ++ title ++
    "</title>\n<style>" ++ styleBlock ++ "</style>\n</head>\n<body>\n"

/-- The export template after the embedded markup. -/
def exportTail : String := "\n</body>\n</html>"

/-- The template literal `content` of `exportHTML`. -/
def exportContent (d : Doc) : String :=
  exportHead d.name ++ d.html ++ exportTail

/-- `exportHTML()`. -/
def exportHTML (p : Page) : Page × Signal :=
  match commit p with
  | none => (p, Signal.typeError)
  | some p1 =>
    match jsGet p1.files p1.activeIndex with
    | none => (p1, Signal.typeError)
    | some d => (p1, Signal.download (downloadName d.name) (exportContent d))

/-! ## Events and reachable states -/

/-- What can happen to the page after `init()`. -/
inductive Event where
  | clickTab (index : Nat)
  | clickClose (index : Nat)
  | upload (names : List String)
  | loaded (b j : Nat) (text : String)
  | highlight (result : Option String)
  | unhighlight (markup : String)
  | input (markup : String)
  | exportClick

/-- When an event can occur: a tab or its close button can be clicked only if it
is drawn, and a read can complete only if it is outstanding. -/
def Event.enabled (p : Page) : Event → Prop
  | .clickTab i => i < p.tabBar.length
  | .clickClose i => i < p.tabBar.length
  | .upload _ => True
  | .loaded b j _ => ∃ B, p.batches[b]? = some B ∧ j ∈ B.pending
  | .highlight _ => True
  | .unhighlight _ => True
  | .input _ => True
  | .exportClick => True

/-- The handler an event runs. -/
def handle (env : Env) (p : Page) : Event → Page × Signal
  | .clickTab i => switchTab env p i
  | .clickClose i => closeTab env p i
  | .upload names => (handleFileUpload p names, Signal.done)
  | .loaded b j text => onload env p b j text
  | .highlight r => applyHighlight p r
  | .unhighlight m => removeHighlight p m
  | .input m => saveState p m
  | .exportClick => exportHTML p

/-- The page after an event (an uncaught error leaves what the handler had
already written). -/
def step (env : Env) (p : Page) (e : Event) : Page := (handle env p e).1

/-- The page after a sequence of events. -/
def run (env : Env) (p : Page) (es : List Event) : Page := es.foldl (step env) p

/-- The states the page can be in: the one `init()` leaves, and every state an
enabled event leads to from such a state. -/
inductive Reachable (env : Env) : Page → Prop where
  | init : Reachable env (init env)
  | step {p : Page} (e : Event) : Reachable env p → e.enabled p → Reachable env (step env p e)

/-- A session in the sense of the data model: `activeIndex` is an index of `files`. -/
def Page.valid (p : Page) : Prop := 0 ≤ p.activeIndex ∧ p.activeIndex < (p.files.length : Int)

/-- The library functions that leave every markup as it is. -/
def Env.plain : Env := { marked := id, renderMath := id, highlightAll := id }

/-- A renderer that decorates the surface on every load: `hljs.highlightAll`
is modelled as appending a marker, so loading is not idempotent. -/
def Env.marking : Env :=
  { marked := id, renderMath := id, highlightAll := fun s => s ++ "<!--hl-->" }

/-- The array `fs` after `fs[n].html = markup`, for `n` an index of `fs`. -/
def storeHtml (fs : List Doc) (n : Nat) (markup : String) : List Doc :=
  match fs[n]? with
  | none => fs
  | some d => fs.set n { d with html := markup }

/-- Every event of the sequence is enabled in the state it occurs in. -/
def enabledAll (env : Env) : Page → List Event → Prop
  | _, [] => True
  | p, e :: es => e.enabled p ∧ enabledAll env (step env p e) es

/-- Three files are selected for upload; after the first and after the second
read completes, the user closes the first tab. -/
def raceEvents : List Event :=
  [Event.upload ["a.md", "b.md", "c.md"], Event.loaded 0 0 "A", Event.clickClose 0,
   Event.loaded 0 1 "B", Event.clickClose 0, Event.loaded 0 2 "C"]

/-- The `files` array after the commit statement of a handler that starts in `p`. -/
def committedFiles (p : Page) : List Doc :=
  storeHtml p.files p.activeIndex.toNat p.reader

/-- The markup `loadActiveFile` leaves in the reader for stored content `html`. -/
def loadedMarkup (env : Env) (html : String) : String :=
  env.highlightAll (env.renderMath html)

/-- A session with two documents, the first one active, whose reader shows the
first document with a pink highlight. -/
def twoDocs : Page :=
  { files := [{ name := "a.md", html := "<p>a</p>" }, { name := "b.md", html := "<p>b</p>" }]
    activeIndex := 0
    reader := "<p><span class=\"highlight-pink\">a</span></p>"
    tabBar := [{ name := "a.md", active := true }, { name := "b.md", active := false }]
    batches := [] }

/-- The pieces of a character list between the occurrences of `sep`. -/
def splitAt (sep : Char) : List Char → List (List Char)
  | [] => [[]]
  | c :: cs =>
    if c = sep then [] :: splitAt sep cs
    else
      match splitAt sep cs with
      | [] => [[c]]
      | seg :: segs => (c :: seg) :: segs

/-- The rules of a style sheet without nesting, as pairs of selector and
declaration text: the text is cut at every closing brace, and a piece that has
exactly one opening brace is a rule. -/
def cssRules (css : String) : List (String × String) :=
  (splitAt (Char.ofNat 125) css.data).filterMap fun seg =>
    match splitAt (Char.ofNat 123) (seg.dropWhile Char.isWhitespace) with
    | [sel, body] => some (String.mk sel, String.mk body)
    | _ => none

/-- The rules of a style sheet whose selector is an annotation class. -/
def annotationRules (css : String) : List (String × String) :=
  (cssRules css).filter fun r => ".highlight-".data.isPrefixOf r.1.data

/-- The page after the calls `switchTab(i)` for the indices of the list, in order. -/
def afterSwitches (env : Env) (p : Page) (indices : List Nat) : Page :=
  indices.foldl (fun (q : Page) (i : Nat) => (switchTab env q (i : Int)).1) p

/-- The documents pushed by the read completions `cs` (position of the file in
the selection, text read) of a batch with the given file names, in order. -/
def uploadedDocs (env : Env) (names : List String) (cs : List (Nat × String)) : List Doc :=
  cs.map fun c => { name := names.getD c.1 "", html := env.marked c.2 }

/-- The `onload` events of batch `b` for the read completions `cs`, in order. -/
def completions (b : Nat) (cs : List (Nat × String)) : List Event :=
  cs.map fun c => Event.loaded b c.1 c.2

/-- The page `q` in the middle of batch `b`, started at page `p` for the files
`names`, after the reads `done` have completed: the new documents are appended,
nothing else of the session has changed, and the batch has counted them. -/
def MidBatch (env : Env) (p : Page) (names : List String) (b : Nat)
    (done : List (Nat × String)) (q : Page) : Prop :=
  q.files = p.files ++ uploadedDocs env names done ∧
  q.activeIndex = p.activeIndex ∧
  q.reader = p.reader ∧
  ∃ B, q.batches[b]? = some B ∧ B.uploadedFiles = names ∧ B.loadedCount = done.length ∧
    B.pending.Nodup ∧ ∀ j, j ∈ B.pending ↔ (j < names.length ∧ j ∉ done.map Prod.fst)

/-- The page after one file, `x.md`, has been uploaded to the seed session and
its read has completed, with a loader that decorates the surface. -/
def afterUpload : Page :=
  run Env.marking (init Env.marking) [Event.upload ["x.md"], Event.loaded 0 0 "<p>x</p>"]

/-! ## Basic facts about the handlers -/

theorem jsGet_some_iff {α : Type} (xs : List α) (i : Int) (a : α) :
    jsGet xs i = some a ↔ 0 ≤ i ∧ xs[i.toNat]? = some a := by
  unfold jsGet
  split
  · constructor
    · intro h; cases h
    · rintro ⟨h, _⟩; omega
  · constructor
    · intro h; exact ⟨by omega, h⟩
    · rintro ⟨_, h⟩; exact h

theorem jsGet_none_of_out {α : Type} (xs : List α) (i : Int)
    (h : i < 0 ∨ (xs.length : Int) ≤ i) : jsGet xs i = none := by
  unfold jsGet
  split
  · rfl
  · apply List.getElem?_eq_none
    omega

theorem jsGet_isSome_of_valid {α : Type} (xs : List α) (i : Int)
    (h0 : 0 ≤ i) (h1 : i < (xs.length : Int)) : ∃ a, jsGet xs i = some a := by
  have hlt : i.toNat < xs.length := by omega
  refine ⟨xs[i.toNat], ?_⟩
  unfold jsGet
  rw [if_neg (by omega)]
  exact List.getElem?_eq_getElem hlt

theorem loadActiveFile_files (env : Env) (p : Page) :
    (loadActiveFile env p).1.files = p.files := by
  unfold loadActiveFile; split <;> rfl

theorem loadActiveFile_activeIndex (env : Env) (p : Page) :
    (loadActiveFile env p).1.activeIndex = p.activeIndex := by
  unfold loadActiveFile; split <;> rfl

theorem commit_eq_some (p p1 : Page) (h : commit p = some p1) :
    ∃ d, jsGet p.files p.activeIndex = some d ∧
      p1 = { p with files := p.files.set p.activeIndex.toNat { d with html := p.reader } } := by
  unfold commit at h
  split at h
  · cases h
  · next d hd => exact ⟨d, hd, by injection h with h; exact h.symm⟩

theorem commit_files_length (p p1 : Page) (h : commit p = some p1) :
    p1.files.length = p.files.length := by
  obtain ⟨d, _, rfl⟩ := commit_eq_some p p1 h
  simp

theorem switchTab_files_length (env : Env) (p : Page) (index : Int) :
    (switchTab env p index).1.files.length = p.files.length := by
  unfold switchTab
  split
  · rfl
  · next p1 h =>
    rw [loadActiveFile_files]
    exact commit_files_length p p1 h

theorem splice1_length_ge {α : Type} (xs : List α) (index : Int) :
    xs.length - 1 ≤ (splice1 xs index).length := by
  unfold splice1
  rw [List.length_eraseIdx]
  split <;> omega

theorem closeTab_files_nonempty (env : Env) (p : Page) (index : Int)
    (h : 1 ≤ p.files.length) : 1 ≤ (closeTab env p index).1.files.length := by
  unfold closeTab
  split
  · exact h
  · next hne =>
    simp only [loadActiveFile_files, renderTabs]
    have := splice1_length_ge p.files index
    omega

theorem onload_files_length_ge (env : Env) (p : Page) (b j : Nat) (text : String) :
    p.files.length ≤ (onload env p b j text).1.files.length := by
  unfold onload
  split
  · exact le_refl _
  · split
    · split
      · exact le_refl _
      · simp only
        split
        · rw [switchTab_files_length]; simp
        · simp
    · exact le_refl _

theorem saveState_files_length (p : Page) (markup : String) :
    (saveState p markup).1.files.length = p.files.length := by
  unfold saveState
  simp only
  split
  · rfl
  · next p2 h => exact commit_files_length { p with reader := markup } p2 h

theorem exportHTML_files_length (p : Page) :
    (exportHTML p).1.files.length = p.files.length := by
  unfold exportHTML
  split
  · rfl
  · next p1 h =>
    split
    · exact commit_files_length p p1 h
    · exact commit_files_length p p1 h

theorem step_files_nonempty (env : Env) (p : Page) (e : Event)
    (h : 1 ≤ p.files.length) : 1 ≤ (step env p e).files.length := by
  cases e with
  | clickTab i => simp only [step, handle, switchTab_files_length]; exact h
  | clickClose i => exact closeTab_files_nonempty env p i h
  | upload names =>
    simp only [step, handle, handleFileUpload]
    split <;> exact h
  | loaded b j text => exact le_trans h (onload_files_length_ge env p b j text)
  | highlight r =>
    cases r with
    | none => exact h
    | some m => simp only [step, handle, applyHighlight, saveState_files_length]; exact h
  | unhighlight m => simp only [step, handle, removeHighlight, saveState_files_length]; exact h
  | input m => simp only [step, handle, saveState_files_length]; exact h
  | exportClick => simp only [step, handle, exportHTML_files_length]; exact h

theorem init_files (env : Env) : (init env).files = boot.files := by
  unfold init
  rw [loadActiveFile_files]
  rfl

/-! ## The document list is never empty -/

/-- C1: in every state reachable from the seed state through tab clicks, close
clicks, uploads and their read completions, highlight apply and remove, input
and export, the document list holds at least one document. -/
theorem files_nonempty_of_reachable (env : Env) (p : Page) (h : Reachable env p) :
    1 ≤ p.files.length := by
  induction h with
  | init => rw [init_files]; exact le_refl _
  | step e _ _ ih => exact step_files_nonempty env _ e ih

theorem reachable_run (env : Env) (es : List Event) :
    ∀ p, Reachable env p → enabledAll env p es → Reachable env (run env p es) := by
  induction es with
  | nil => intro p hp _; exact hp
  | cons e es ih =>
    intro p hp hen
    exact ih (step env p e) (Reachable.step e hp hen.1) hen.2

theorem init_eq (env : Env) : init env =
    { files := [{ name := "Welcome.md", html := welcomeHtml }], activeIndex := 0,
      reader := env.highlightAll (env.renderMath welcomeHtml),
      tabBar := [{ name := "Welcome.md", active := true }], batches := [] } := by
  simp [init, boot, loadActiveFile, renderTabs, jsGet, tabsFrom]

theorem raceEvents_run (env : Env) : run env (init env) raceEvents =
    { files := [{ name := "b.md", html := env.highlightAll (env.renderMath (env.marked "B")) },
                { name := "c.md", html := env.marked "C" }],
      activeIndex := -1,
      reader := env.highlightAll (env.renderMath (env.marked "B")),
      tabBar := [{ name := "b.md", active := false }, { name := "c.md", active := false }],
      batches := [{ uploadedFiles := ["a.md", "b.md", "c.md"], loadedCount := 3, pending := [] }] } := by
  simp [run, raceEvents, step, handle, init, boot, handleFileUpload, onload, closeTab, switchTab,
    loadActiveFile, renderTabs, commit, jsGet, splice1, spliceStart, tabsFrom, List.range,
    List.range.loop]

theorem raceEvents_reachable (env : Env) : Reachable env (run env (init env) raceEvents) := by
  have h0 : Reachable env (init env) := Reachable.init
  have h1 := Reachable.step (Event.upload ["a.md", "b.md", "c.md"]) h0 trivial
  have h2 := Reachable.step (Event.loaded 0 0 "A") h1 (by
    simp [Event.enabled, step, handle, handleFileUpload, init_eq, List.range, List.range.loop])
  have h3 := Reachable.step (Event.clickClose 0) h2 (by
    simp [Event.enabled, step, handle, handleFileUpload, onload, init_eq, List.range, List.range.loop])
  simp only [step, handle, init_eq] at h3
  simp [handleFileUpload, onload, closeTab, loadActiveFile, renderTabs, jsGet, splice1, spliceStart,
    tabsFrom, List.range, List.range.loop] at h3
  have h4 := Reachable.step (Event.loaded 0 1 "B") h3 (by simp [Event.enabled])
  have h5 := Reachable.step (Event.clickClose 0) h4 (by
    simp [Event.enabled, step, handle, onload])
  simp [step, handle, onload, closeTab, loadActiveFile, renderTabs, jsGet, splice1, spliceStart,
    tabsFrom] at h5
  have h6 := Reachable.step (Event.loaded 0 2 "C") h5 (by simp [Event.enabled])
  simp [step, handle, onload, switchTab, commit, loadActiveFile, renderTabs, jsGet, tabsFrom] at h6
  rw [raceEvents_run]
  exact h6

/-- C1 at a state reached through an upload, read completions and close clicks. -/
theorem files_nonempty_of_reachable_witness :
    1 ≤ (run Env.plain (init Env.plain) raceEvents).files.length :=
  files_nonempty_of_reachable Env.plain _ (raceEvents_reachable Env.plain)

/-! ## The active pointer -/

/-- C2 fails on the code: closing tabs between the read completions of one upload
batch makes the last completion call `switchTab(files.length - uploadedFiles.length)`
with a negative argument.  The state reached is reachable through close clicks
on drawn tabs and read completions only, and in it `activeIndex` is `-1` while
`files` holds two documents. -/
theorem activeIndex_negative_after_close_during_upload (env : Env) :
    Reachable env (run env (init env) raceEvents) ∧
      (run env (init env) raceEvents).activeIndex = -1 ∧
      (run env (init env) raceEvents).files.length = 2 ∧
      ¬ (run env (init env) raceEvents).valid := by
  refine ⟨raceEvents_reachable env, ?_, ?_, ?_⟩
  · rw [raceEvents_run]
  · rw [raceEvents_run]; rfl
  · rw [raceEvents_run]
    intro h
    have h0 : (0 : Int) ≤ -1 := h.1
    omega

/-! ## Committing -/

theorem storeHtml_length (fs : List Doc) (n : Nat) (m : String) :
    (storeHtml fs n m).length = fs.length := by
  unfold storeHtml
  split <;> simp

theorem storeHtml_names (fs : List Doc) (n : Nat) (m : String) :
    (storeHtml fs n m).map Doc.name = fs.map Doc.name := by
  unfold storeHtml
  split
  · rfl
  · next d hd =>
    apply List.ext_getElem?
    intro k
    by_cases hk : n = k
    · subst hk
      simp [List.getElem?_set, hd]
      exact (List.getElem?_eq_some_iff.mp hd).1
    · simp [List.getElem?_set, hk]

theorem storeHtml_getElem?_ne (fs : List Doc) (n k : Nat) (m : String) (h : k ≠ n) :
    (storeHtml fs n m)[k]? = fs[k]? := by
  unfold storeHtml
  split
  · rfl
  · simp [List.getElem?_set, Ne.symm h]

theorem storeHtml_getElem?_self (fs : List Doc) (n : Nat) (m : String) (d : Doc)
    (h : fs[n]? = some d) : (storeHtml fs n m)[n]? = some { d with html := m } := by
  unfold storeHtml
  rw [h]
  have hn : n < fs.length := by
    rcases List.getElem?_eq_some_iff.mp h with ⟨hn, _⟩
    exact hn
  simp [List.getElem?_set, hn]

theorem commit_of_valid (p : Page) (hv : p.valid) :
    commit p = some { p with files := committedFiles p } := by
  obtain ⟨d, hd⟩ := jsGet_isSome_of_valid p.files p.activeIndex hv.1 hv.2
  have hd2 := ((jsGet_some_iff _ _ _).mp hd).2
  unfold commit committedFiles storeHtml
  rw [hd, hd2]

/-! ## Closing the last document -/

/-- C3: when the session holds exactly one document, `closeTab` with any index
returns the page it was given (same `files`, same `activeIndex`, same reader
markup, same tab strip) and ends with the notice "Keep at least one file open.". -/
theorem closeTab_last_document (env : Env) (p : Page) (index : Int)
    (h : p.files.length = 1) :
    closeTab env p index = (p, Signal.alert "Keep at least one file open.") := by
  unfold closeTab
  rw [if_pos h]

/-- C3 at the seed state, for the index of its only tab. -/
theorem closeTab_last_document_witness :
    closeTab Env.plain (init Env.plain) 0 =
      (init Env.plain, Signal.alert "Keep at least one file open.") :=
  closeTab_last_document Env.plain (init Env.plain) 0 (by decide)

/-! ## Switching tabs -/

theorem switchTab_of_valid (env : Env) (p : Page) (index : Int) (hv : p.valid) :
    switchTab env p index =
      loadActiveFile env (renderTabs { p with files := committedFiles p, activeIndex := index }) := by
  unfold switchTab
  rw [commit_of_valid p hv]

theorem switchTab_of_valid_index (env : Env) (p : Page) (index : Int) (hv : p.valid)
    (h0 : 0 ≤ index) (h1 : index < (p.files.length : Int)) :
    ∃ t, (committedFiles p)[index.toNat]? = some t ∧
      switchTab env p index =
        ({ files := committedFiles p, activeIndex := index, reader := loadedMarkup env t.html,
           tabBar := tabsFrom index 0 (committedFiles p), batches := p.batches }, Signal.done) := by
  have hlen : (committedFiles p).length = p.files.length := storeHtml_length _ _ _
  obtain ⟨t, ht⟩ := jsGet_isSome_of_valid (committedFiles p) index h0 (by rw [hlen]; exact h1)
  have ht2 := ((jsGet_some_iff _ _ _).mp ht).2
  refine ⟨t, ht2, ?_⟩
  rw [switchTab_of_valid env p index hv]
  unfold loadActiveFile renderTabs
  simp only [ht]
  rfl

theorem committedFiles_active (p : Page) (hv : p.valid) :
    ∃ d, p.files[p.activeIndex.toNat]? = some d ∧
      (committedFiles p)[p.activeIndex.toNat]? = some { d with html := p.reader } := by
  obtain ⟨d, hd⟩ := jsGet_isSome_of_valid p.files p.activeIndex hv.1 hv.2
  have hd2 := ((jsGet_some_iff _ _ _).mp hd).2
  exact ⟨d, hd2, storeHtml_getElem?_self _ _ _ d hd2⟩

/-- C4: for a session and an index of `files`, `switchTab(index)` ends normally;
`files` afterwards is `files` with the reader's markup stored as the content of
the document that was active, `activeIndex` is `index`, and the reader holds the
load of the content of document `index` taken from that committed array.  The
number of documents, their names, and every document other than the previously
active one are as before. -/
theorem switchTab_commits_then_loads (env : Env) (p : Page) (index : Int) (hv : p.valid)
    (h0 : 0 ≤ index) (h1 : index < (p.files.length : Int)) :
    ∃ d t, p.files[p.activeIndex.toNat]? = some d ∧
      (committedFiles p)[p.activeIndex.toNat]? = some { d with html := p.reader } ∧
      (committedFiles p)[index.toNat]? = some t ∧
      switchTab env p index =
        ({ files := committedFiles p, activeIndex := index, reader := loadedMarkup env t.html,
           tabBar := tabsFrom index 0 (committedFiles p), batches := p.batches }, Signal.done) ∧
      (committedFiles p).length = p.files.length ∧
      (committedFiles p).map Doc.name = p.files.map Doc.name ∧
      ∀ k : Nat, k ≠ p.activeIndex.toNat → (committedFiles p)[k]? = p.files[k]? := by
  obtain ⟨d, hd, hd2⟩ := committedFiles_active p hv
  obtain ⟨t, ht, hs⟩ := switchTab_of_valid_index env p index hv h0 h1
  exact ⟨d, t, hd, hd2, ht, hs, storeHtml_length _ _ _, storeHtml_names _ _ _,
    fun k hk => storeHtml_getElem?_ne _ _ _ _ hk⟩

/-- C4 at the two-document session: switching from the first tab to the second. -/
theorem switchTab_commits_then_loads_witness :
    ∃ d t, twoDocs.files[twoDocs.activeIndex.toNat]? = some d ∧
      (committedFiles twoDocs)[twoDocs.activeIndex.toNat]? =
        some { d with html := twoDocs.reader } ∧
      (committedFiles twoDocs)[(1 : Int).toNat]? = some t ∧
      switchTab Env.plain twoDocs 1 =
        ({ files := committedFiles twoDocs, activeIndex := 1,
           reader := loadedMarkup Env.plain t.html,
           tabBar := tabsFrom 1 0 (committedFiles twoDocs),
           batches := twoDocs.batches }, Signal.done) ∧
      (committedFiles twoDocs).length = twoDocs.files.length ∧
      (committedFiles twoDocs).map Doc.name = twoDocs.files.map Doc.name ∧
      ∀ k : Nat, k ≠ twoDocs.activeIndex.toNat →
        (committedFiles twoDocs)[k]? = twoDocs.files[k]? :=
  switchTab_commits_then_loads Env.plain twoDocs 1 ⟨by decide, by decide⟩ (by decide) (by decide)

/-- C9 as stated fails: at the seed state `switchTab(5)` stores `5` in
`activeIndex` although `files` has one entry, the tab strip is redrawn with no
active tab, and the handler ends with the `TypeError` of `loadActiveFile`. -/
theorem switchTab_accepts_index_out_of_range :
    (switchTab Env.plain (init Env.plain) 5).1.activeIndex = 5 ∧
      (switchTab Env.plain (init Env.plain) 5).1.files.length = 1 ∧
      (switchTab Env.plain (init Env.plain) 5).1.tabBar = [{ name := "Welcome.md", active := false }] ∧
      (switchTab Env.plain (init Env.plain) 5).2 = Signal.typeError := by
  decide

/-- C9 amended: for a session and an index outside `[0, files.length)`,
`switchTab(index)` makes no range check.  It commits the reader into the active
document, stores `index` unclamped in `activeIndex`, redraws the tab strip, and
ends with the `TypeError` raised in `loadActiveFile`, the reader left as it was. -/
theorem switchTab_index_out_of_range (env : Env) (p : Page) (index : Int) (hv : p.valid)
    (ho : index < 0 ∨ (p.files.length : Int) ≤ index) :
    switchTab env p index =
      ({ files := committedFiles p, activeIndex := index, reader := p.reader,
         tabBar := tabsFrom index 0 (committedFiles p), batches := p.batches },
       Signal.typeError) := by
  rw [switchTab_of_valid env p index hv]
  unfold loadActiveFile renderTabs
  have hlen : (committedFiles p).length = p.files.length := storeHtml_length _ _ _
  simp only
  rw [jsGet_none_of_out _ _ (by rw [hlen]; exact ho)]

/-- C9 amended, at the seed state and index `-1`. -/
theorem switchTab_index_out_of_range_witness :
    switchTab Env.plain (init Env.plain) (-1) =
      ({ files := committedFiles (init Env.plain), activeIndex := -1,
         reader := (init Env.plain).reader,
         tabBar := tabsFrom (-1) 0 (committedFiles (init Env.plain)),
         batches := (init Env.plain).batches },
       Signal.typeError) :=
  switchTab_index_out_of_range Env.plain (init Env.plain) (-1) ⟨by decide, by decide⟩
    (Or.inl (by decide))

/-! ## Closing a tab -/

theorem splice1_ofNat {α : Type} (xs : List α) (n : Nat) (h : n < xs.length) :
    splice1 xs (n : Int) = xs.eraseIdx n := by
  unfold splice1 spliceStart
  rw [if_neg (by omega)]
  congr 1
  simp only [Int.toNat_ofNat]
  omega

theorem afterUpload_reachable : Reachable Env.marking afterUpload :=
  Reachable.step (Event.loaded 0 0 "<p>x</p>")
    (Reachable.step (Event.upload ["x.md"]) Reachable.init trivial)
    ⟨_, rfl, by decide⟩

/-- C5 as stated fails: after `x.md` has been uploaded to the seed session it is
the active document, its stored content is what `marked.parse` returned and the
reader holds the loaded markup.  Closing the first tab leaves `x.md` in place
with its stored content as it was, not the reader's markup at the call. -/
theorem closeTab_does_not_commit :
    Reachable Env.marking afterUpload ∧
      afterUpload.files.map Doc.name = ["Welcome.md", "x.md"] ∧
      afterUpload.activeIndex = 1 ∧
      afterUpload.reader = "<p>x</p><!--hl-->" ∧
      (closeTab Env.marking afterUpload 0).1.files = [{ name := "x.md", html := "<p>x</p>" }] ∧
      (closeTab Env.marking afterUpload 0).1.files[0]?.map Doc.html ≠ some afterUpload.reader :=
  ⟨afterUpload_reachable, by decide⟩

/-- C5 amended: on a session with more than one document `closeTab(index)` makes
no commit.  It removes the entry at `index` and stores nothing, so every
surviving document keeps the content it had before the call; `activeIndex` is
lowered to the last position only when it has fallen off the end, and the reader
is reloaded from the stored content of the document it then points to. -/
theorem closeTab_removes_without_commit (env : Env) (p : Page) (index : Nat)
    (hlen : 1 < p.files.length) (hi : index < p.files.length) :
    (closeTab env p index).1.files = p.files.eraseIdx index ∧
      (closeTab env p index).1.activeIndex =
        (if ((p.files.length : Int) - 1) ≤ p.activeIndex then (p.files.length : Int) - 2
         else p.activeIndex) ∧
      ∀ d, jsGet (p.files.eraseIdx index) (closeTab env p index).1.activeIndex = some d →
        (closeTab env p index).1.reader = loadedMarkup env d.html ∧
        (closeTab env p index).2 = Signal.done := by
  have hne : ¬ p.files.length = 1 := by omega
  have hfs : splice1 p.files (index : Int) = p.files.eraseIdx index := splice1_ofNat _ _ hi
  have hl : (p.files.eraseIdx index).length = p.files.length - 1 := by
    rw [List.length_eraseIdx, if_pos hi]
  have hai : (closeTab env p index).1.activeIndex =
      (if ((p.files.length : Int) - 1) ≤ p.activeIndex then (p.files.length : Int) - 2
         else p.activeIndex) := by
    unfold closeTab
    rw [if_neg hne]
    simp only [loadActiveFile_activeIndex, renderTabs, hfs, hl]
    have : ((p.files.length - 1 : Nat) : Int) = (p.files.length : Int) - 1 := by omega
    rw [this]
    split <;> omega
  refine ⟨?_, hai, ?_⟩
  · unfold closeTab
    rw [if_neg hne]
    simp only [loadActiveFile_files, renderTabs, hfs]
  · intro d hd
    rw [hai] at hd
    unfold closeTab
    rw [if_neg hne]
    simp only [hfs, hl]
    have : ((p.files.length - 1 : Nat) : Int) = (p.files.length : Int) - 1 := by omega
    rw [this]
    have e2 : (if (p.files.length : Int) - 1 ≤ p.activeIndex then (p.files.length : Int) - 1 - 1
        else p.activeIndex) =
      (if ((p.files.length : Int) - 1) ≤ p.activeIndex then (p.files.length : Int) - 2
         else p.activeIndex) := by
      split <;> omega
    rw [e2]
    unfold loadActiveFile renderTabs
    simp only [hd]
    exact ⟨rfl, trivial⟩

/-- C5 amended, at the two-document session, closing the tab that is not active. -/
theorem closeTab_removes_without_commit_witness :
    (closeTab Env.plain twoDocs (1 : Nat)).1.files = twoDocs.files.eraseIdx 1 ∧
      (closeTab Env.plain twoDocs (1 : Nat)).1.activeIndex =
        (if ((twoDocs.files.length : Int) - 1) ≤ twoDocs.activeIndex
         then (twoDocs.files.length : Int) - 2 else twoDocs.activeIndex) ∧
      ∀ d, jsGet (twoDocs.files.eraseIdx 1) (closeTab Env.plain twoDocs (1 : Nat)).1.activeIndex =
          some d →
        (closeTab Env.plain twoDocs (1 : Nat)).1.reader = loadedMarkup Env.plain d.html ∧
        (closeTab Env.plain twoDocs (1 : Nat)).2 = Signal.done :=
  closeTab_removes_without_commit Env.plain twoDocs 1 (by decide) (by decide)

/-! ## Switching away and back -/

theorem afterSwitches_snoc (env : Env) (p : Page) (indices : List Nat) (i : Nat) :
    afterSwitches env p (indices ++ [i]) =
      (switchTab env (afterSwitches env p indices) (i : Int)).1 := by
  unfold afterSwitches
  rw [List.foldl_append]
  rfl

theorem afterSwitches_three (env : Env) (p : Page) (i j : Nat) (hv : p.valid)
    (hi : i < p.files.length) (hj : j < p.files.length) :
    (afterSwitches env p [i, j]).files[i]?.map Doc.html = some (afterSwitches env p [i]).reader ∧
      (j ≠ i → (afterSwitches env p [i, j, i]).files[i]? = (afterSwitches env p [i, j]).files[i]?) ∧
      (j = i → (afterSwitches env p [i, j, i]).files[i]?.map Doc.html =
        some (loadedMarkup env (afterSwitches env p [i]).reader)) := by
  -- first call
  obtain ⟨t1, ht1, hs1⟩ := switchTab_of_valid_index env p i hv (by omega) (by omega)
  have e1 : afterSwitches env p [i] = (switchTab env p (i : Int)).1 := rfl
  rw [hs1] at e1
  have hl1 : (afterSwitches env p [i]).files.length = p.files.length := by
    rw [e1]; exact storeHtml_length _ _ _
  have ha1 : (afterSwitches env p [i]).activeIndex = (i : Int) := by rw [e1]
  have hv1 : (afterSwitches env p [i]).valid := by
    unfold Page.valid
    rw [ha1, hl1]
    omega
  -- second call
  obtain ⟨d2, hd2, hc2⟩ := committedFiles_active _ hv1
  obtain ⟨t2, ht2, hs2⟩ := switchTab_of_valid_index env _ (j : Int) hv1 (by omega)
    (by rw [hl1]; omega)
  have e2 : afterSwitches env p [i, j] = (switchTab env (afterSwitches env p [i]) (j : Int)).1 :=
    afterSwitches_snoc env p [i] j
  rw [hs2] at e2
  rw [ha1, Int.toNat_ofNat] at hc2
  have hf2 : (afterSwitches env p [i, j]).files[i]? =
      some { d2 with html := (afterSwitches env p [i]).reader } := by
    rw [e2]; exact hc2
  have hl2 : (afterSwitches env p [i, j]).files.length = p.files.length := by
    rw [e2]
    show (committedFiles _).length = _
    rw [← hl1]
    exact storeHtml_length _ _ _
  have ha2 : (afterSwitches env p [i, j]).activeIndex = (j : Int) := by rw [e2]
  have hr2 : (afterSwitches env p [i, j]).reader = loadedMarkup env t2.html := by rw [e2]
  have hv2 : (afterSwitches env p [i, j]).valid := by
    unfold Page.valid
    rw [ha2, hl2]
    omega
  -- third call
  obtain ⟨d3, hd3, hc3⟩ := committedFiles_active _ hv2
  obtain ⟨t3, ht3, hs3⟩ := switchTab_of_valid_index env _ (i : Int) hv2 (by omega)
    (by rw [hl2]; omega)
  have e3 : afterSwitches env p [i, j, i] =
      (switchTab env (afterSwitches env p [i, j]) (i : Int)).1 :=
    afterSwitches_snoc env p [i, j] i
  rw [hs3] at e3
  have hf3 : (afterSwitches env p [i, j, i]).files = committedFiles (afterSwitches env p [i, j]) := by
    rw [e3]
  rw [ha2, Int.toNat_ofNat] at hc3 hd3
  refine ⟨by rw [hf2]; rfl, ?_, ?_⟩
  · intro hne
    rw [hf3]
    unfold committedFiles
    rw [ha2, Int.toNat_ofNat]
    exact storeHtml_getElem?_ne _ _ _ _ (Ne.symm hne)
  · intro heq
    subst heq
    rw [hf3, hc3, hr2]
    rw [Int.toNat_ofNat] at ht2
    have : t2 = { d2 with html := (afterSwitches env p [j]).reader } := by
      have h := ht2
      rw [show committedFiles (afterSwitches env p [j]) = (afterSwitches env p [j, j]).files by
        rw [e2]] at h
      rw [hf2] at h
      exact (Option.some.inj h).symm
    rw [this]
    rfl

/-- C8: for a session and indices `i`, `j` of `files` with `j ≠ i`, so that
`switchTab(j)` is a switch away from document `i`: the `switchTab(j)` step
commits the reader's markup as the content of document `i`, and after the
following `switchTab(i)` document `i` is exactly as that step left it, its
stored content being the markup committed there. -/
theorem switchTab_away_and_back (env : Env) (p : Page) (i j : Nat) (hv : p.valid)
    (hi : i < p.files.length) (hj : j < p.files.length) (hne : j ≠ i) :
    (afterSwitches env p [i, j]).files[i]?.map Doc.html = some (afterSwitches env p [i]).reader ∧
      (afterSwitches env p [i, j, i]).files[i]? = (afterSwitches env p [i, j]).files[i]? ∧
      (afterSwitches env p [i, j, i]).files[i]?.map Doc.html =
        some (afterSwitches env p [i]).reader := by
  obtain ⟨h1, h2, _⟩ := afterSwitches_three env p i j hv hi hj
  exact ⟨h1, h2 hne, by rw [h2 hne]; exact h1⟩

/-- C8 at the two-document session with `i = 0` and `j = 1`, for a loader that
changes the markup it loads. -/
theorem switchTab_away_and_back_witness :
    (afterSwitches Env.marking twoDocs [0, 1]).files[0]?.map Doc.html =
        some (afterSwitches Env.marking twoDocs [0]).reader ∧
      (afterSwitches Env.marking twoDocs [0, 1, 0]).files[0]? =
        (afterSwitches Env.marking twoDocs [0, 1]).files[0]? ∧
      (afterSwitches Env.marking twoDocs [0, 1, 0]).files[0]?.map Doc.html =
        some (afterSwitches Env.marking twoDocs [0]).reader :=
  switchTab_away_and_back Env.marking twoDocs 0 1 ⟨by decide, by decide⟩ (by decide) (by decide)
    (by decide)

/-! ## Export -/

theorem replaceFirst_of_absent (pat rep : List Char) (hp : pat ≠ []) :
    ∀ s : List Char, ¬ pat <:+: s → replaceFirst pat rep s = s := by
  intro s
  induction s with
  | nil => intro _; simp [replaceFirst, hp]
  | cons c cs ih =>
    intro h
    have h1 : pat.isPrefixOf (c :: cs) = false := by
      cases hb : pat.isPrefixOf (c :: cs) with
      | false => rfl
      | true => exact absurd (List.isPrefixOf_iff_prefix.mp hb).isInfix h
    have h2 : ¬ pat <:+: cs := fun hin => h (hin.trans (List.suffix_cons c cs).isInfix)
    simp only [replaceFirst, h1, Bool.false_eq_true, if_false]
    rw [ih h2]

theorem replaceFirst_first (pat rep post : List Char) (hp : pat ≠ []) :
    ∀ pre : List Char, ¬ pat <:+: pre ++ pat.dropLast →
      replaceFirst pat rep (pre ++ pat ++ post) = pre ++ rep ++ post := by
  intro pre
  induction pre with
  | nil =>
    intro _
    obtain ⟨a, pat1, rfl⟩ := List.exists_cons_of_ne_nil hp
    have hpre : (a :: pat1).isPrefixOf (a :: pat1 ++ post) = true :=
      List.isPrefixOf_iff_prefix.mpr (List.prefix_append _ _)
    simp only [List.nil_append, List.cons_append] at hpre ⊢
    simp only [replaceFirst, hpre, if_true]
    rw [← List.cons_append, List.drop_left]
  | cons c pre1 ih =>
    intro h
    have h1 : pat.isPrefixOf (c :: pre1 ++ pat ++ post) = false := by
      cases hb : pat.isPrefixOf (c :: pre1 ++ pat ++ post) with
      | false => rfl
      | true =>
        exfalso
        apply h
        have hpfx := List.isPrefixOf_iff_prefix.mp hb
        have hother : (c :: pre1 ++ pat.dropLast) <+: (c :: pre1 ++ pat ++ post) := by
          obtain ⟨t, ht⟩ := List.dropLast_prefix pat
          refine ⟨t ++ post, ?_⟩
          simp only [List.cons_append, List.append_assoc]
          rw [← List.append_assoc pat.dropLast t post, ht]
        have hlen : pat.length ≤ (c :: pre1 ++ pat.dropLast).length := by
          simp [List.length_dropLast]
          have : 0 < pat.length := List.length_pos.mpr hp
          omega
        exact (List.prefix_of_prefix_length_le hpfx hother hlen).isInfix
    have h2 : ¬ pat <:+: pre1 ++ pat.dropLast := fun hin =>
      h (hin.trans (List.suffix_cons c (pre1 ++ pat.dropLast)).isInfix)
    simp only [List.cons_append] at h1 ⊢
    simp only [replaceFirst, h1, Bool.false_eq_true, if_false]
    rw [ih h2]

/-- C10 as stated fails: for the name `notes.txt` the suggested filename is
`notes.txt`, not `notes.html`. -/
theorem downloadName_keeps_other_extension :
    downloadName "notes.txt" = "notes.txt" ∧ downloadName "notes.txt" ≠ "notes.html" := by
  decide

/-- C10 amended: the filename `exportHTML` suggests is the document name with
`.md` replaced by `.html` when the name ends in `.md` and has no earlier
occurrence of `.md`, and is the name unchanged when `.md` does not occur in it. -/
theorem downloadName_replaces_md (name : String) :
    (¬ ".md".data <:+: name.data → downloadName name = name) ∧
      (∀ stem : String, name = stem ++ ".md" → ¬ ".md".data <:+: (stem ++ ".m").data →
        downloadName name = stem ++ ".html") := by
  constructor
  · intro h
    unfold downloadName
    rw [replaceFirst_of_absent _ _ (by decide) _ h]
  · intro stem hname h
    subst hname
    unfold downloadName
    have h2 : ¬ ".md".data <:+: stem.data ++ (".md".data).dropLast := by
      simpa using h
    have := replaceFirst_first ".md".data ".html".data [] (by decide) stem.data h2
    simp only [List.append_nil] at this
    rw [String.data_append, this]
    rfl

/-- C10 amended, at `Welcome.md` and at `notes.txt`. -/
theorem downloadName_replaces_md_witness :
    downloadName "notes.txt" = "notes.txt" ∧ downloadName "Welcome.md" = "Welcome" ++ ".html" :=
  ⟨(downloadName_replaces_md "notes.txt").1 (by decide),
   (downloadName_replaces_md "Welcome.md").2 "Welcome" (by decide) (by decide)⟩

theorem styleBlock_annotationRules :
    annotationRules styleBlock =
      [(".highlight-yellow", "background:#fde047"), (".highlight-green", "background:#86efac"),
       (".highlight-blue", "background:#93c5fd"), (".highlight-pink", "background:#f9a8d4")] := by
  decide

theorem exportHTML_of_valid (p : Page) (d : Doc) (hv : p.valid)
    (hd : p.files[p.activeIndex.toNat]? = some d) :
    exportHTML p =
      ({ p with files := committedFiles p },
       Signal.download (downloadName d.name) (exportHead d.name ++ p.reader ++ exportTail)) := by
  have hc : (committedFiles p)[p.activeIndex.toNat]? = some { d with html := p.reader } :=
    storeHtml_getElem?_self _ _ _ d hd
  have hj : jsGet (committedFiles p) p.activeIndex = some { d with html := p.reader } :=
    (jsGet_some_iff _ _ _).mpr ⟨hv.1, hc⟩
  unfold exportHTML
  rw [commit_of_valid p hv]
  simp only [hj]
  rfl

/-- C6: for a session, `exportHTML` first stores the reader's markup as the
content of the active document and then offers a download whose text is the
template with the document name as title, the fixed style block, and exactly
that markup between the `body` tags.  The style block has exactly four rules for
annotation classes: yellow `#fde047`, green `#86efac`, blue `#93c5fd`, pink
`#f9a8d4`.  `activeIndex`, the reader, the number of documents and every other
document are as before. -/
theorem exportHTML_commits_then_snapshots (p : Page) (hv : p.valid) :
    ∃ d, p.files[p.activeIndex.toNat]? = some d ∧
      exportHTML p =
        ({ files := committedFiles p, activeIndex := p.activeIndex, reader := p.reader,
           tabBar := p.tabBar, batches := p.batches },
         Signal.download (downloadName d.name)
           ("\n<!DOCTYPE html>\n<html>\n<head>\n<meta charset=\"utf-8\">\n<title>" ++ d.name ++
             "</title>\n<style>" ++ styleBlock ++ "</style>\n</head>\n<body>\n" ++ p.reader ++
             "\n</body>\n</html>")) ∧
      (committedFiles p)[p.activeIndex.toNat]? = some { d with html := p.reader } ∧
      annotationRules styleBlock =
        [(".highlight-yellow", "background:#fde047"), (".highlight-green", "background:#86efac"),
         (".highlight-blue", "background:#93c5fd"), (".highlight-pink", "background:#f9a8d4")] ∧
      (committedFiles p).length = p.files.length ∧
      ∀ k : Nat, k ≠ p.activeIndex.toNat → (committedFiles p)[k]? = p.files[k]? := by
  obtain ⟨d, hd, hc⟩ := committedFiles_active p hv
  exact ⟨d, hd, exportHTML_of_valid p d hv hd, hc, styleBlock_annotationRules,
    storeHtml_length _ _ _, fun k hk => storeHtml_getElem?_ne _ _ _ _ hk⟩

/-- C6 at the two-document session, whose reader holds a pink highlight. -/
theorem exportHTML_commits_then_snapshots_witness :
    ∃ d, twoDocs.files[twoDocs.activeIndex.toNat]? = some d ∧
      exportHTML twoDocs =
        ({ files := committedFiles twoDocs, activeIndex := twoDocs.activeIndex,
           reader := twoDocs.reader, tabBar := twoDocs.tabBar, batches := twoDocs.batches },
         Signal.download (downloadName d.name)
           ("\n<!DOCTYPE html>\n<html>\n<head>\n<meta charset=\"utf-8\">\n<title>" ++ d.name ++
             "</title>\n<style>" ++ styleBlock ++ "</style>\n</head>\n<body>\n" ++ twoDocs.reader ++
             "\n</body>\n</html>")) ∧
      (committedFiles twoDocs)[twoDocs.activeIndex.toNat]? =
        some { d with html := twoDocs.reader } ∧
      annotationRules styleBlock =
        [(".highlight-yellow", "background:#fde047"), (".highlight-green", "background:#86efac"),
         (".highlight-blue", "background:#93c5fd"), (".highlight-pink", "background:#f9a8d4")] ∧
      (committedFiles twoDocs).length = twoDocs.files.length ∧
      ∀ k : Nat, k ≠ twoDocs.activeIndex.toNat → (committedFiles twoDocs)[k]? = twoDocs.files[k]? :=
  exportHTML_commits_then_snapshots twoDocs ⟨by decide, by decide⟩

/-! ## Upload batches -/

theorem run_append (env : Env) (p : Page) (es1 es2 : List Event) :
    run env p (es1 ++ es2) = run env (run env p es1) es2 := by
  unfold run
  rw [List.foldl_append]

theorem enabledAll_append (env : Env) (es1 es2 : List Event) :
    ∀ p, enabledAll env p (es1 ++ es2) ↔
      enabledAll env p es1 ∧ enabledAll env (run env p es1) es2 := by
  induction es1 with
  | nil => intro p; simp [enabledAll, run]
  | cons e es ih =>
    intro p
    show e.enabled p ∧ enabledAll env (step env p e) (es ++ es2) ↔
      (e.enabled p ∧ enabledAll env (step env p e) es) ∧ enabledAll env (run env (step env p e) es) es2
    rw [ih, and_assoc]

theorem completions_append (b : Nat) (cs1 cs2 : List (Nat × String)) :
    completions b (cs1 ++ cs2) = completions b cs1 ++ completions b cs2 := by
  unfold completions
  rw [List.map_append]

theorem midBatch_start (env : Env) (p : Page) (names : List String) (hn : names ≠ []) :
    MidBatch env p names p.batches.length [] (handleFileUpload p names) := by
  have hl : ¬ names.length = 0 := by
    intro h; exact hn (List.length_eq_zero.mp h)
  unfold handleFileUpload MidBatch
  rw [if_neg hl]
  refine ⟨by simp [uploadedDocs], rfl, rfl, _, List.getElem?_concat_length _ _, rfl, rfl,
    List.nodup_range _, ?_⟩
  intro j
  simp

theorem midBatch_enabled (env : Env) (p : Page) (names : List String) (b : Nat)
    (done : List (Nat × String)) (q : Page) (c : Nat × String)
    (h : MidBatch env p names b done q) (hc : c.1 < names.length) (hnew : c.1 ∉ done.map Prod.fst) :
    (Event.loaded b c.1 c.2).enabled q := by
  obtain ⟨_, _, _, B, hB, _, _, _, hmem⟩ := h
  exact ⟨B, hB, (hmem c.1).mpr ⟨hc, hnew⟩⟩

theorem onload_of_midBatch (env : Env) (p : Page) (names : List String) (b : Nat)
    (done : List (Nat × String)) (q : Page) (c : Nat × String)
    (h : MidBatch env p names b done q) (hc : c.1 < names.length) (hnew : c.1 ∉ done.map Prod.fst) :
    ∃ q1, MidBatch env p names b (done ++ [c]) q1 ∧
      onload env q b c.1 c.2 =
        if done.length + 1 = names.length then
          switchTab env q1 ((q1.files.length : Int) - (names.length : Int))
        else (q1, Signal.done) := by
  obtain ⟨hf, ha, hr, B, hB, hnames, hcount, hnd, hmem⟩ := h
  have hb : b < q.batches.length := (List.getElem?_eq_some_iff.mp hB).1
  have hname : names[c.1]? = some (names.getD c.1 "") := by
    rw [List.getD_eq_getElem?_getD, List.getElem?_eq_getElem hc]
    rfl
  have hpend : c.1 ∈ B.pending := (hmem c.1).mpr ⟨hc, hnew⟩
  refine ⟨{ q with files := q.files ++ [{ name := names.getD c.1 "", html := env.marked c.2 }],
                   batches := q.batches.set b { B with loadedCount := B.loadedCount + 1,
                                                       pending := B.pending.erase c.1 } }, ?_, ?_⟩
  · refine ⟨?_, ha, hr, _, List.getElem?_set_self hb, hnames, ?_, hnd.erase _, ?_⟩
    · simp [hf, uploadedDocs]
    · simp [hcount]
    · intro j
      simp only [hnd.mem_erase_iff, hmem j, List.map_append, List.mem_append, List.map_cons,
        List.map_nil, List.mem_singleton]
      tauto
  · unfold onload
    simp only [hB, hpend, if_true, hnames, hname, hcount]


theorem run_completions_mid (env : Env) (p : Page) (names : List String) (b : Nat) :
    ∀ (rest done : List (Nat × String)) (q : Page), MidBatch env p names b done q →
      (rest.map Prod.fst).Nodup →
      (∀ c ∈ rest, c.1 < names.length ∧ c.1 ∉ done.map Prod.fst) →
      done.length + rest.length < names.length →
      MidBatch env p names b (done ++ rest) (run env q (completions b rest)) ∧
        enabledAll env q (completions b rest) := by
  intro rest
  induction rest with
  | nil =>
    intro done q h _ _ _
    simp only [List.append_nil]
    exact ⟨h, trivial⟩
  | cons c rest ih =>
    intro done q h hnd hall hlen
    have hc := hall c (List.mem_cons_self _ _)
    obtain ⟨q1, hq1, hstep⟩ := onload_of_midBatch env p names b done q c h hc.1 hc.2
    simp only [List.length_cons] at hlen
    rw [if_neg (by omega)] at hstep
    have hs : step env q (Event.loaded b c.1 c.2) = q1 := by
      show (onload env q b c.1 c.2).1 = q1
      rw [hstep]
    simp only [List.map_cons, List.nodup_cons] at hnd
    have hall2 : ∀ c2 ∈ rest, c2.1 < names.length ∧ c2.1 ∉ (done ++ [c]).map Prod.fst := by
      intro c2 hc2
      have h2 := hall c2 (List.mem_cons_of_mem _ hc2)
      refine ⟨h2.1, ?_⟩
      simp only [List.map_append, List.mem_append, List.map_cons, List.map_nil,
        List.mem_singleton, not_or]
      refine ⟨h2.2, ?_⟩
      intro heq
      exact hnd.1 (heq ▸ List.mem_map_of_mem Prod.fst hc2)
    have := ih (done ++ [c]) q1 hq1 hnd.2 hall2 (by simp only [List.length_append, List.length_cons, List.length_nil]; omega)
    rw [List.append_assoc] at this
    refine ⟨?_, ?_, ?_⟩
    · show MidBatch env p names b (done ++ c :: rest) (run env (step env q (Event.loaded b c.1 c.2)) (completions b rest))
      rw [hs]
      exact this.1
    · exact midBatch_enabled env p names b done q c h hc.1 hc.2
    · show enabledAll env (step env q (Event.loaded b c.1 c.2)) (completions b rest)
      rw [hs]
      exact this.2


theorem storeHtml_append_left (fs gs : List Doc) (n : Nat) (m : String) (h : n < fs.length) :
    storeHtml (fs ++ gs) n m = storeHtml fs n m ++ gs := by
  unfold storeHtml
  rw [List.getElem?_append_left h, List.getElem?_eq_getElem h]
  simp only
  rw [List.set_append_left _ _ h]

theorem switchTab_of_batch_end (env : Env) (p : Page) (names : List String) (b : Nat)
    (done : List (Nat × String)) (q : Page) (hv : p.valid) (hn : names ≠ [])
    (h : MidBatch env p names b done q) (hlen : done.length = names.length) :
    (switchTab env q ((q.files.length : Int) - (names.length : Int))).1.files =
        committedFiles p ++ uploadedDocs env names done ∧
      (switchTab env q ((q.files.length : Int) - (names.length : Int))).1.activeIndex =
        (p.files.length : Int) := by
  obtain ⟨hf, ha, hr, _⟩ := h
  have hql : q.files.length = p.files.length + names.length := by
    rw [hf, List.length_append, ← hlen]
    simp [uploadedDocs]
  have hidx : (q.files.length : Int) - (names.length : Int) = (p.files.length : Int) := by
    rw [hql]; push_cast; omega
  have hqv : q.valid := by
    unfold Page.valid at hv ⊢
    rw [ha, hql]
    push_cast
    omega
  rw [hidx]
  obtain ⟨t, _, hs⟩ := switchTab_of_valid_index env q (p.files.length : Int) hqv (by omega)
    (by rw [hql]; push_cast; have := List.length_pos.mpr hn; omega)
  rw [hs]
  refine ⟨?_, rfl⟩
  show committedFiles q = _
  unfold committedFiles
  rw [hf, ha, hr]
  exact storeHtml_append_left _ _ _ _ (by unfold Page.valid at hv; omega)


theorem perm_range_facts (n : Nat) (cs : List (Nat × String))
    (hperm : (cs.map Prod.fst).Perm (List.range n)) :
    cs.length = n ∧ (cs.map Prod.fst).Nodup ∧ ∀ c ∈ cs, c.1 < n := by
  refine ⟨?_, hperm.nodup_iff.mpr (List.nodup_range n), ?_⟩
  · have := hperm.length_eq
    simpa using this
  · intro c hc
    have : c.1 ∈ List.range n := hperm.subset (List.mem_map_of_mem Prod.fst hc)
    exact List.mem_range.mp this

theorem run_completions_prefix (env : Env) (p : Page) (names : List String)
    (cs : List (Nat × String)) (hn : names ≠ [])
    (hperm : (cs.map Prod.fst).Perm (List.range names.length)) (m : Nat) (hm : m < names.length) :
    MidBatch env p names p.batches.length (cs.take m)
        (run env (handleFileUpload p names) (completions p.batches.length (cs.take m))) ∧
      enabledAll env (handleFileUpload p names) (completions p.batches.length (cs.take m)) := by
  obtain ⟨hlen, hnd, hlt⟩ := perm_range_facts _ cs hperm
  have h := run_completions_mid env p names p.batches.length (cs.take m) []
    (handleFileUpload p names) (midBatch_start env p names hn)
    (by rw [List.map_take]; exact hnd.sublist (List.take_sublist _ _))
    (fun c hc => ⟨hlt c (List.mem_of_mem_take hc), by simp⟩)
    (by simp only [List.length_nil, List.length_take]; omega)
  simpa using h

/-- C7: a batch of `n ≥ 1` files is started on a session with `k` documents,
and its reads complete in any order `cs` (a permutation of the file positions),
with nothing else happening in between.  Every completion is enabled when it
occurs; after any `m < n` completions `activeIndex` is unchanged and `files` is
the old array followed by the documents delivered so far; after all `n`, `files`
is the old array (the reader committed into the active document) followed by
the `n` new documents in completion order, `k + n` in all, and `activeIndex = k`. -/
theorem upload_batch_activates_first_slot (env : Env) (p : Page) (names : List String)
    (cs : List (Nat × String)) (hv : p.valid) (hn : names ≠ [])
    (hperm : (cs.map Prod.fst).Perm (List.range names.length)) :
    enabledAll env (handleFileUpload p names) (completions p.batches.length cs) ∧
      (∀ m, m < names.length →
        (run env (handleFileUpload p names)
            (completions p.batches.length (cs.take m))).activeIndex = p.activeIndex ∧
        (run env (handleFileUpload p names)
            (completions p.batches.length (cs.take m))).files =
          p.files ++ uploadedDocs env names (cs.take m)) ∧
      (run env (handleFileUpload p names) (completions p.batches.length cs)).files =
        committedFiles p ++ uploadedDocs env names cs ∧
      (run env (handleFileUpload p names) (completions p.batches.length cs)).files.map Doc.name =
        p.files.map Doc.name ++ cs.map (fun c => names.getD c.1 "") ∧
      (run env (handleFileUpload p names) (completions p.batches.length cs)).files.length =
        p.files.length + names.length ∧
      (run env (handleFileUpload p names) (completions p.batches.length cs)).activeIndex =
        (p.files.length : Int) := by
  obtain ⟨hlen, hnd, hlt⟩ := perm_range_facts _ cs hperm
  have hpos : 0 < names.length := List.length_pos.mpr hn
  have hcs : cs ≠ [] := by
    intro h; rw [h] at hlen; simp at hlen; omega
  -- split off the last completion
  have hsplit : cs.take (names.length - 1) ++ [cs.getLast hcs] = cs := by
    rw [← hlen, ← List.dropLast_eq_take]
    exact List.dropLast_concat_getLast hcs
  obtain ⟨hmid, hen⟩ := run_completions_prefix env p names cs hn hperm (names.length - 1) (by omega)
  have hlast_lt := hlt (cs.getLast hcs) (List.getLast_mem hcs)
  have hlast_new : (cs.getLast hcs).1 ∉ (cs.take (names.length - 1)).map Prod.fst := by
    have hnd2 := hnd
    rw [← hsplit, List.map_append, List.nodup_append] at hnd2
    intro hmem
    exact hnd2.2.2 hmem (by simp)
  obtain ⟨q1, hq1, hstep⟩ := onload_of_midBatch env p names p.batches.length _ _ (cs.getLast hcs)
    hmid hlast_lt hlast_new
  have htl : (cs.take (names.length - 1)).length + 1 = names.length := by
    rw [List.length_take]; omega
  rw [if_pos htl] at hstep
  rw [hsplit] at hq1
  have hcomp : completions p.batches.length cs =
      completions p.batches.length (cs.take (names.length - 1)) ++
        completions p.batches.length [cs.getLast hcs] := by
    rw [← completions_append, hsplit]
  have hrun : run env (handleFileUpload p names) (completions p.batches.length cs) =
      (switchTab env q1 ((q1.files.length : Int) - (names.length : Int))).1 := by
    rw [hcomp, run_append]
    show (onload env _ p.batches.length (cs.getLast hcs).1 (cs.getLast hcs).2).1 = _
    rw [hstep]
  have hfin := switchTab_of_batch_end env p names p.batches.length cs q1 hv hn hq1 hlen
  refine ⟨?_, ?_, ?_, ?_, ?_, ?_⟩
  · rw [hcomp, enabledAll_append]
    exact ⟨hen, midBatch_enabled env p names _ _ _ _ hmid hlast_lt hlast_new, trivial⟩
  · intro m hm
    obtain ⟨⟨hf, ha, _⟩, _⟩ := run_completions_prefix env p names cs hn hperm m hm
    exact ⟨ha, hf⟩
  · rw [hrun]; exact hfin.1
  · rw [hrun, hfin.1, List.map_append]
    have : (committedFiles p).map Doc.name = p.files.map Doc.name := storeHtml_names _ _ _
    rw [this]
    simp [uploadedDocs]
  · rw [hrun, hfin.1, List.length_append]
    have : (committedFiles p).length = p.files.length := storeHtml_length _ _ _
    rw [this]
    simp [uploadedDocs, hlen]
  · rw [hrun]; exact hfin.2


/-- C7 at the two-document session, for two files whose reads complete in the
reverse of the selection order. -/
theorem upload_batch_activates_first_slot_witness :
    (run Env.plain (handleFileUpload twoDocs ["x.md", "y.md"])
        (completions twoDocs.batches.length [(1, "Y"), (0, "X")])).files =
        committedFiles twoDocs ++ uploadedDocs Env.plain ["x.md", "y.md"] [(1, "Y"), (0, "X")] ∧
      (run Env.plain (handleFileUpload twoDocs ["x.md", "y.md"])
        (completions twoDocs.batches.length [(1, "Y"), (0, "X")])).activeIndex = 2 :=
  have h := upload_batch_activates_first_slot Env.plain twoDocs ["x.md", "y.md"]
    [(1, "Y"), (0, "X")] ⟨by decide, by decide⟩ (by decide) (List.Perm.swap 0 1 [])
  ⟨h.2.2.1, h.2.2.2.2.2⟩

end ReadmeReader
